import Mathlib

/-!
Verification development for the hypercube validator core: the FinPlan
contract engine (`fin_plan_program.rs`), the WriteStage leader-rotation
truncation (`write_stage.rs`), and the batched datagram receiver
(`recvmmsg.rs`).

The Rust code is shallowly embedded: 64-bit machine integers are modelled
as `Nat`/`Int`, byte buffers as `List Nat`, in-place mutation as explicit
state threading, and a Rust panic (out-of-bounds index, slice out of
range) as `Option.none`.  A function that can both fail with a typed
error and panic returns `Option (Except FinPlanError _)`.
-/

namespace Hypercube

/-! ## Little-endian byte encoding primitives (bincode model) -/

/-- Little-endian base-256 digits of `n`, padded or truncated to `k` bytes.
Models bincode's fixed-width little-endian integer layout. -/
def natLEBytes : Nat → Nat → List Nat
  | 0, _ => []
  | k + 1, n => n % 256 :: natLEBytes k (n / 256)

/-- Read a little-endian base-256 byte list back into a `Nat`. -/
def fromLEBytes : List Nat → Nat
  | [] => 0
  | b :: r => b + 256 * fromLEBytes r

/-- bincode `u32` little-endian layout. -/
def u32LE (n : Nat) : List Nat := natLEBytes 4 n

/-- bincode `u64` little-endian layout. -/
def u64LE (n : Nat) : List Nat := natLEBytes 8 n

/-- bincode `i64` layout: two's-complement value in 8 little-endian bytes. -/
def i64LE (z : Int) : List Nat := natLEBytes 8 (z % 2 ^ 64).toNat

/-- Interpret an unsigned 64-bit value as a two's-complement `i64`. -/
def decodeI64 (n : Nat) : Int := if n < 2 ^ 63 then (n : Int) else (n : Int) - 2 ^ 64

theorem natLEBytes_length (k n : Nat) : (natLEBytes k n).length = k := by
  induction k generalizing n with
  | zero => rfl
  | succ k ih => simp [natLEBytes, ih]

theorem fromLEBytes_natLEBytes (k n : Nat) (h : n < 256 ^ k) :
    fromLEBytes (natLEBytes k n) = n := by
  induction k generalizing n with
  | zero => simp [pow_zero] at h; simp [natLEBytes, fromLEBytes, h]
  | succ k ih =>
    have hdiv : n / 256 < 256 ^ k := by
      rw [Nat.div_lt_iff_lt_mul (by norm_num)]
      calc n < 256 ^ (k + 1) := h
        _ = 256 ^ k * 256 := by ring
    simp [natLEBytes, fromLEBytes, ih _ hdiv, Nat.mod_add_div]

theorem decodeI64_i64LE (z : Int) (h1 : -(2 ^ 63) ≤ z) (h2 : z < 2 ^ 63) :
    decodeI64 (fromLEBytes (i64LE z)) = z := by
  unfold i64LE decodeI64
  have h64 : (2 : Int) ^ 64 = 18446744073709551616 := by norm_num
  have h63i : (2 : Int) ^ 63 = 9223372036854775808 := by norm_num
  have h63n : (2 : Nat) ^ 63 = 9223372036854775808 := by norm_num
  have h256 : (256 : Nat) ^ 8 = 18446744073709551616 := by norm_num
  rw [h64] at *
  rw [h63i] at *
  rcases le_or_lt 0 z with hz | hz
  · have he : z % 18446744073709551616 = z := Int.emod_eq_of_lt hz (by omega)
    rw [he, fromLEBytes_natLEBytes 8 _ (by rw [h256]; omega)]
    have hc : z.toNat < 2 ^ 63 := by rw [h63n]; omega
    rw [if_pos hc]
    omega
  · have h1 : (z + 18446744073709551616 * 1) % 18446744073709551616 =
        z % 18446744073709551616 := Int.add_mul_emod_self_left z 18446744073709551616 1
    rw [mul_one] at h1
    have he : z % 18446744073709551616 = z + 18446744073709551616 := by
      rw [← h1, Int.emod_eq_of_lt (by omega) (by omega)]
    rw [he, fromLEBytes_natLEBytes 8 _ (by rw [h256]; omega)]
    have hc : ¬ (z + 18446744073709551616).toNat < 2 ^ 63 := by rw [h63n]; omega
    rw [if_neg hc]
    omega

/-! ## Data model

`Pubkey` is a 32-byte opaque identity; we model it as the `Nat` value of
its 32 little-endian bytes.  `DateTimeUtc` is modelled as an abstract
tick count.  Account token balances are `i64`, modelled as `Int`. -/

/-- 32-byte opaque identity (spec section 3), modelled by its numeric value. -/
abbrev Pubkey := Nat

/-- Chrono UTC datetime, modelled as an abstract tick count. -/
abbrev DateTimeUtc := Nat

/-- Modelled from the spec: the external `Payment` type produced by
`FinPlan::final_payment`, `{to: Pubkey, tokens: i64}`.  Field order
`tokens`-then-`to` follows the reference byte sequences of spec S4. -/
structure Payment where
  tokens : Int
  to_key : Pubkey
deriving DecidableEq

/-- Modelled from the spec: a witness condition of the external FinPlan
DSL — evidence of a timestamp reached, or of a signature from a named
key (spec glossary, "Witness"). -/
inductive Condition where
  | timestamp : DateTimeUtc → Pubkey → Condition
  | signature : Pubkey → Condition
deriving DecidableEq

/-- Modelled from the spec: the `Witness` kind handed to
`FinPlan::apply_witness` (`trx_out::Witness` in the source imports). -/
inductive Witness where
  | timestamp : DateTimeUtc → Witness
  | signature : Witness
deriving DecidableEq

/-- Modelled from the spec: the external FinPlan payment-plan DSL
"supporting timestamp and signature witness conditions and optional
cancellation paths".  `pay` is a concrete payout, `payAfter` a payout
gated on one condition, `race` two condition/payout alternatives (the
cancellation path).  Variant numbering 0/1/2 matches the reference
byte sequences of spec S4. -/
inductive FinPlan where
  | pay : Payment → FinPlan
  | payAfter : Condition → Payment → FinPlan
  | race : Condition × Payment → Condition × Payment → FinPlan
deriving DecidableEq

/-- Modelled from the spec: whether a witness from key `key` satisfies a
condition.  A timestamp condition is met by a timestamp witness at or
past the deadline from the named key; a signature condition by a
signature witness from the named key. -/
def Condition.is_satisfied : Condition → Witness → Pubkey → Bool
  | .timestamp dt pk, .timestamp last, key => pk == key && dt ≤ last
  | .signature pk, .signature, key => pk == key
  | _, _, _ => false

/-- Modelled from the spec: `FinPlan::apply_witness(kind, key)` "which
mutates the plan in place" — a satisfied condition reduces the plan to
its concrete payout. -/
def FinPlan.apply_witness : FinPlan → Witness → Pubkey → FinPlan
  | .pay p, _, _ => .pay p
  | .payAfter c p, w, key => if c.is_satisfied w key then .pay p else .payAfter c p
  | .race cp1 cp2, w, key =>
    if cp1.1.is_satisfied w key then .pay cp1.2
    else if cp2.1.is_satisfied w key then .pay cp2.2
    else .race cp1 cp2

/-- Modelled from the spec: `FinPlan::final_payment() -> Option<Payment>`
"which, if the plan has reduced to a concrete payout, yields
`{to: Pubkey, tokens: i64}`". -/
def FinPlan.final_payment : FinPlan → Option Payment
  | .pay p => some p
  | _ => none

/-- Account state (spec section 3): token balance and opaque userdata.
The owner program id plays no role in the embedded functions. -/
structure Account where
  tokens : Int
  userdata : List Nat
deriving DecidableEq

/-- Modelled from the spec: the `Contract` payload of
`Instruction::NewContract{tokens, plan}`.  Field order follows the
reference byte sequences of spec S4. -/
structure Contract where
  tokens : Int
  fin_plan : FinPlan
deriving DecidableEq

/-- Modelled from the spec: the FinPlan instruction set (spec section 3),
a tagged union `NewContract{tokens, plan}`, `ApplyTimestamp(datetime)`,
`ApplySignature`, `NewVote(opaque)`; tags 0/1/2 are pinned by the
reference byte sequences of spec S4.  The vote payload is opaque bytes. -/
inductive Instruction where
  | newContract : Contract → Instruction
  | applyTimestamp : DateTimeUtc → Instruction
  | applySignature : Instruction
  | newVote : List Nat → Instruction
deriving DecidableEq

/-- Modelled from the spec: the fields of the external `Transaction` that
the contract engine reads — the positional account keys and the encoded
instruction bytes. -/
structure Transaction where
  keys : List Pubkey
  userdata : List Nat
deriving DecidableEq

/-- The FinPlan error taxonomy (`FinPlanError` in `fin_plan_program.rs`). -/
inductive FinPlanError where
  | InsufficientFunds : Pubkey → FinPlanError
  | ContractAlreadyExists : Pubkey → FinPlanError
  | ContractNotPending : Pubkey → FinPlanError
  | SourceIsPendingContract : Pubkey → FinPlanError
  | UninitializedContract : Pubkey → FinPlanError
  | NegativeTokens : FinPlanError
  | DestinationMissing : Pubkey → FinPlanError
  | FailedWitness : FinPlanError
  | UserdataTooSmall : FinPlanError
  | UserdataDeserializeFailure : FinPlanError
deriving DecidableEq

/-- The contract state stored in a contract account's userdata
(`FinPlanState` in `fin_plan_program.rs`). -/
structure FinPlanState where
  initialized : Bool
  pending_fin_plan : Option FinPlan
deriving DecidableEq

/-- Rust `FinPlanState::default()`: `{initialized: false, pending_fin_plan: None}`. -/
def FinPlanState.mkDefault : FinPlanState := ⟨false, none⟩

/-- `FinPlanState::is_pending`: `self.pending_fin_plan != None`. -/
def FinPlanState.is_pending (s : FinPlanState) : Bool := s.pending_fin_plan.isSome

/-! ## bincode body encoding of `FinPlanState` and `Instruction`

Modelled from the spec: "Wire layout is length-prefixed variant encoding
using little-endian integers; the reference byte sequences in section 8
are binding."  Enum variants carry a `u32` tag, `Option` a one-byte tag,
booleans one byte, datetimes a `u64`-length-prefixed byte string. -/

def encodeBool : Bool → List Nat
  | false => [0]
  | true => [1]

/-- Datetime wire form: `u64` length prefix followed by the payload bytes
(the source serializes an ISO-8601 string; we carry the tick count in
eight payload bytes). -/
def encodeDT (dt : DateTimeUtc) : List Nat := u64LE 8 ++ u64LE dt

def encodePayment (p : Payment) : List Nat := i64LE p.tokens ++ natLEBytes 32 p.to_key

def encodeCondition : Condition → List Nat
  | .timestamp dt pk => u32LE 0 ++ encodeDT dt ++ natLEBytes 32 pk
  | .signature pk => u32LE 1 ++ natLEBytes 32 pk

def encodeFinPlan : FinPlan → List Nat
  | .pay p => u32LE 0 ++ encodePayment p
  | .payAfter c p => u32LE 1 ++ encodeCondition c ++ encodePayment p
  | .race cp1 cp2 =>
    u32LE 2 ++ encodeCondition cp1.1 ++ encodePayment cp1.2 ++
      encodeCondition cp2.1 ++ encodePayment cp2.2

def encodeOptionFinPlan : Option FinPlan → List Nat
  | none => [0]
  | some fp => 1 :: encodeFinPlan fp

/-- bincode body of a `FinPlanState` (what `serialized_size` measures). -/
def encodeState (s : FinPlanState) : List Nat :=
  encodeBool s.initialized ++ encodeOptionFinPlan s.pending_fin_plan

def encodeInstruction : Instruction → List Nat
  | .newContract c => u32LE 0 ++ i64LE c.tokens ++ encodeFinPlan c.fin_plan
  | .applyTimestamp dt => u32LE 1 ++ encodeDT dt
  | .applySignature => u32LE 2
  | .newVote v => u32LE 3 ++ v

/-! ### Parsers (bincode deserialization model)

Each partial parser consumes a prefix of the byte list and returns the
decoded value with the leftover bytes, or `none` on a decode error.
Like bincode's `deserialize`, the top-level decoders ignore bytes left
over after the value. -/

def readBytesAt (k : Nat) (l : List Nat) : Option (List Nat × List Nat) :=
  if l.length < k then none else some (l.take k, l.drop k)

def parseU32 (l : List Nat) : Option (Nat × List Nat) :=
  (readBytesAt 4 l).map fun br => (fromLEBytes br.1, br.2)

def parseU64 (l : List Nat) : Option (Nat × List Nat) :=
  (readBytesAt 8 l).map fun br => (fromLEBytes br.1, br.2)

def parseI64 (l : List Nat) : Option (Int × List Nat) :=
  (readBytesAt 8 l).map fun br => (decodeI64 (fromLEBytes br.1), br.2)

def parsePubkey (l : List Nat) : Option (Pubkey × List Nat) :=
  (readBytesAt 32 l).map fun br => (fromLEBytes br.1, br.2)

def parseDT (l : List Nat) : Option (DateTimeUtc × List Nat) :=
  match parseU64 l with
  | none => none
  | some (len, r) =>
    match readBytesAt len r with
    | none => none
    | some (b, r2) => some (fromLEBytes b, r2)

def parseBool : List Nat → Option (Bool × List Nat)
  | [] => none
  | b :: r => if b = 0 then some (false, r) else if b = 1 then some (true, r) else none

def parsePayment (l : List Nat) : Option (Payment × List Nat) :=
  match parseI64 l with
  | none => none
  | some (t, r) =>
    match parsePubkey r with
    | none => none
    | some (pk, r2) => some (⟨t, pk⟩, r2)

def parseCondition (l : List Nat) : Option (Condition × List Nat) :=
  match parseU32 l with
  | none => none
  | some (tag, r) =>
    if tag = 0 then
      match parseDT r with
      | none => none
      | some (dt, r2) =>
        match parsePubkey r2 with
        | none => none
        | some (pk, r3) => some (.timestamp dt pk, r3)
    else if tag = 1 then
      match parsePubkey r with
      | none => none
      | some (pk, r2) => some (.signature pk, r2)
    else none

def parseFinPlan (l : List Nat) : Option (FinPlan × List Nat) :=
  match parseU32 l with
  | none => none
  | some (tag, r) =>
    if tag = 0 then
      match parsePayment r with
      | none => none
      | some (p, r2) => some (.pay p, r2)
    else if tag = 1 then
      match parseCondition r with
      | none => none
      | some (c, r2) =>
        match parsePayment r2 with
        | none => none
        | some (p, r3) => some (.payAfter c p, r3)
    else if tag = 2 then
      match parseCondition r with
      | none => none
      | some (c1, r2) =>
        match parsePayment r2 with
        | none => none
        | some (p1, r3) =>
          match parseCondition r3 with
          | none => none
          | some (c2, r4) =>
            match parsePayment r4 with
            | none => none
            | some (p2, r5) => some (.race (c1, p1) (c2, p2), r5)
    else none

def parseOptionFinPlan : List Nat → Option (Option FinPlan × List Nat)
  | [] => none
  | b :: r =>
    if b = 0 then some (none, r)
    else if b = 1 then
      match parseFinPlan r with
      | none => none
      | some (fp, r2) => some (some fp, r2)
    else none

def parseStateBody (l : List Nat) : Option (FinPlanState × List Nat) :=
  match parseBool l with
  | none => none
  | some (b, r) =>
    match parseOptionFinPlan r with
    | none => none
    | some (o, r2) => some (⟨b, o⟩, r2)

/-- bincode `deserialize::<FinPlanState>` on raw bytes (no framing);
this is what `get_balance` calls. -/
def rawDeserializeState (l : List Nat) : Option FinPlanState :=
  (parseStateBody l).map Prod.fst

def parseInstruction (l : List Nat) : Option Instruction :=
  match parseU32 l with
  | none => none
  | some (tag, r) =>
    if tag = 0 then
      match parseI64 r with
      | none => none
      | some (t, r2) =>
        match parseFinPlan r2 with
        | none => none
        | some (fp, _) => some (.newContract ⟨t, fp⟩)
    else if tag = 1 then
      match parseDT r with
      | none => none
      | some (dt, _) => some (.applyTimestamp dt)
    else if tag = 2 then some .applySignature
    else if tag = 3 then some (.newVote r)
    else none

/-! ## Contract userdata framing (`FinPlanState::serialize` / `deserialize`)

The account layout is a little-endian `u64` body length in bytes 0..8
followed by the bincode body.  `serialize` mirrors the source exactly:
it compares the buffer against the *body* length only, then slices
`buf[..8]` and `buf[8..8+len]` — each slice panics (`none`) when the
buffer is too short for it. -/

/-- `FinPlanState::serialize(&self, output)`: write the framed state into
the buffer, returning the new buffer contents.  `none` models the panic
when a slice index is out of range. -/
def FinPlanState.serialize (s : FinPlanState) (buf : List Nat) :
    Option (Except FinPlanError (List Nat)) :=
  if buf.length < (encodeState s).length then some (.error .UserdataTooSmall)
  else if buf.length < 8 then none
  else if buf.length < 8 + (encodeState s).length then none
  else some (.ok (u64LE (encodeState s).length ++ encodeState s ++
    buf.drop (8 + (encodeState s).length)))

/-- `FinPlanState::deserialize(input)`: check the 8-byte header, the
`len ≥ 2` guard and the total length, then decode the body slice.
A bincode error is collapsed to `none` (the caller only tests `Ok`). -/
def FinPlanState.deserialize (input : List Nat) : Option FinPlanState :=
  if input.length < 8 then none
  else if fromLEBytes (input.take 8) < 2 then none
  else if input.length < 8 + fromLEBytes (input.take 8) then none
  else rawDeserializeState ((input.drop 8).take (fromLEBytes (input.take 8)))

/-! ## The contract engine -/

/-- Common body of `FinPlanState::apply_signature` and
`FinPlanState::apply_timestamp` (the two source methods are identical
except for the `Witness` value they construct).  Returns the outcome,
the mutated state and the mutated accounts; `none` models the panics on
`keys[0]`, `keys[2]`, `account[1]`, `account[2]`. -/
def applyWitnessStep (s : FinPlanState) (keys : List Pubkey)
    (accounts : List Account) (w : Witness) :
    Option (Except FinPlanError Unit × FinPlanState × List Account) :=
  match s.pending_fin_plan with
  | none => some (.ok (), s, accounts)
  | some fp =>
    match keys[0]? with
    | none => none
    | some k0 =>
      match (fp.apply_witness w k0).final_payment with
      | none => some (.ok (), { s with pending_fin_plan := some (fp.apply_witness w k0) }, accounts)
      | some payment =>
        if keys.length < 2 then
          some (.error (.DestinationMissing payment.to_key),
            { s with pending_fin_plan := some (fp.apply_witness w k0) }, accounts)
        else
          match keys[2]? with
          | none => none
          | some k2 =>
            if payment.to_key ≠ k2 then
              some (.error (.DestinationMissing payment.to_key),
                { s with pending_fin_plan := some (fp.apply_witness w k0) }, accounts)
            else
              match accounts[1]?, accounts[2]? with
              | some a1, some a2 =>
                some (.ok (), { s with pending_fin_plan := none },
                  (accounts.set 1 { a1 with tokens := a1.tokens - payment.tokens }).set 2
                    { a2 with tokens := a2.tokens + payment.tokens })
              | _, _ => none

/-- `FinPlanState::apply_signature(keys, account)`. -/
def FinPlanState.apply_signature (s : FinPlanState) (keys : List Pubkey)
    (accounts : List Account) :
    Option (Except FinPlanError Unit × FinPlanState × List Account) :=
  applyWitnessStep s keys accounts .signature

/-- `FinPlanState::apply_timestamp(keys, accounts, dt)`. -/
def FinPlanState.apply_timestamp (s : FinPlanState) (keys : List Pubkey)
    (accounts : List Account) (dt : DateTimeUtc) :
    Option (Except FinPlanError Unit × FinPlanState × List Account) :=
  applyWitnessStep s keys accounts (.timestamp dt)

/-- `FinPlanState::apply_debits_to_fin_plan_state`. -/
def apply_debits_to_fin_plan_state (tx : Transaction) (accounts : List Account)
    (instruction : Instruction) :
    Option (Except FinPlanError Unit × List Account) :=
  match accounts[0]? with
  | none => none
  | some a0 =>
    if ¬ a0.userdata.isEmpty then
      match tx.keys[0]? with
      | none => none
      | some k0 => some (.error (.SourceIsPendingContract k0), accounts)
    else
      match instruction with
      | .newContract c =>
        if c.tokens < 0 then some (.error .NegativeTokens, accounts)
        else if a0.tokens < c.tokens then
          match tx.keys[0]? with
          | none => none
          | some k0 => some (.error (.InsufficientFunds k0), accounts)
        else some (.ok (), accounts.set 0 { a0 with tokens := a0.tokens - c.tokens })
      | _ => some (.ok (), accounts)

/-- Common body of the `ApplyTimestamp` / `ApplySignature` arms of
`FinPlanState::apply_credits_to_fin_plan_state` (identical except for
the witness routine invoked). -/
def applyWitnessCredit (tx : Transaction) (accounts : List Account) (w : Witness) :
    Option (Except FinPlanError Unit × List Account) :=
  match accounts[1]? with
  | none => none
  | some a1 =>
    match FinPlanState.deserialize a1.userdata with
    | some state =>
      if ¬ state.is_pending then
        match tx.keys[1]? with
        | none => none
        | some k1 => some (.error (.ContractNotPending k1), accounts)
      else if ¬ state.initialized then
        match tx.keys[1]? with
        | none => none
        | some k1 => some (.error (.UninitializedContract k1), accounts)
      else
        match applyWitnessStep state tx.keys accounts w with
        | none => none
        | some (.error e, _, accounts2) => some (.error e, accounts2)
        | some (.ok _, s2, accounts2) =>
          match accounts2[1]? with
          | none => none
          | some a1b =>
            match s2.serialize a1b.userdata with
            | none => none
            | some (.error e) => some (.error e, accounts2)
            | some (.ok buf) => some (.ok (), accounts2.set 1 { a1b with userdata := buf })
    | none =>
      match tx.keys[1]? with
      | none => none
      | some k1 => some (.error (.UninitializedContract k1), accounts)

/-- `FinPlanState::apply_credits_to_fin_plan_state`. -/
def apply_credits_to_fin_plan_state (tx : Transaction) (accounts : List Account)
    (instruction : Instruction) :
    Option (Except FinPlanError Unit × List Account) :=
  match instruction with
  | .newContract c =>
    match c.fin_plan.final_payment with
    | some payment =>
      match accounts[1]? with
      | none => none
      | some a1 => some (.ok (), accounts.set 1 { a1 with tokens := a1.tokens + payment.tokens })
    | none =>
      match accounts[1]? with
      | none => none
      | some a1 =>
        if (FinPlanState.deserialize a1.userdata).map FinPlanState.initialized = some true then
          match tx.keys[1]? with
          | none => none
          | some k1 => some (.error (.ContractAlreadyExists k1), accounts)
        else
          match FinPlanState.serialize ⟨true, some c.fin_plan⟩ a1.userdata with
          | none => none
          | some (.error e) =>
            some (.error e, accounts.set 1 { a1 with tokens := a1.tokens + c.tokens })
          | some (.ok buf) =>
            some (.ok (), accounts.set 1
              { a1 with tokens := a1.tokens + c.tokens, userdata := buf })
  | .applyTimestamp dt => applyWitnessCredit tx accounts (.timestamp dt)
  | .applySignature => applyWitnessCredit tx accounts .signature
  | .newVote _ => some (.ok (), accounts)

/-- `FinPlanState::process_transaction(tx, accounts)`: decode the
instruction, apply debits, then credits. -/
def process_transaction (tx : Transaction) (accounts : List Account) :
    Option (Except FinPlanError Unit × List Account) :=
  match parseInstruction tx.userdata with
  | none => some (.error .UserdataDeserializeFailure, accounts)
  | some instruction =>
    match apply_debits_to_fin_plan_state tx accounts instruction with
    | none => none
    | some (.error e, accounts2) => some (.error e, accounts2)
    | some (.ok _, accounts2) => apply_credits_to_fin_plan_state tx accounts2 instruction

/-- `FinPlanState::get_balance(account)`: note the source calls the raw
bincode `deserialize` on the userdata, not the framed
`FinPlanState::deserialize`. -/
def get_balance (account : Account) : Int :=
  match rawDeserializeState account.userdata with
  | some state => if state.is_pending then 0 else account.tokens
  | none => account.tokens

/-! ## Representability predicates

The Rust types bound every `u8` below 256, every pubkey below `2 ^ 256`,
every datetime payload below `2 ^ 64` and every `i64` within the signed
64-bit range; the `Nat`/`Int` model states those bounds explicitly. -/

def WFPubkey (pk : Pubkey) : Prop := pk < 2 ^ 256

def WFdt (dt : DateTimeUtc) : Prop := dt < 2 ^ 64

def WFi64 (z : Int) : Prop := -(2 ^ 63) ≤ z ∧ z < 2 ^ 63

def WFPayment (p : Payment) : Prop := WFi64 p.tokens ∧ WFPubkey p.to_key

def WFCondition : Condition → Prop
  | .timestamp dt pk => WFdt dt ∧ WFPubkey pk
  | .signature pk => WFPubkey pk

def WFFinPlan : FinPlan → Prop
  | .pay p => WFPayment p
  | .payAfter c p => WFCondition c ∧ WFPayment p
  | .race cp1 cp2 =>
    (WFCondition cp1.1 ∧ WFPayment cp1.2) ∧ (WFCondition cp2.1 ∧ WFPayment cp2.2)

def WFState (s : FinPlanState) : Prop :=
  match s.pending_fin_plan with
  | none => True
  | some fp => WFFinPlan fp

instance : DecidablePred WFPubkey := fun _ => by unfold WFPubkey; infer_instance

instance : DecidablePred WFdt := fun _ => by unfold WFdt; infer_instance

instance : DecidablePred WFi64 := fun _ => by unfold WFi64; infer_instance

instance : DecidablePred WFPayment := fun _ => by unfold WFPayment; infer_instance

instance : DecidablePred WFCondition := fun c => by
  cases c <;> simp only [WFCondition] <;> infer_instance

instance : DecidablePred WFFinPlan := fun fp => by
  cases fp <;> simp only [WFFinPlan] <;> infer_instance

instance : DecidablePred WFState := fun s => by
  unfold WFState
  cases s.pending_fin_plan <;> simp only [] <;> infer_instance

/-! ## WriteStage: `find_leader_rotation_index` (`write_stage.rs`)

The cluster state is abstracted to the leader oracle
`L : Nat → Option Pubkey` (`get_scheduled_leader`) and `my : Pubkey`
(`my_data().id`), exactly the two reads the source performs. -/

/-- The source's `loop`: at each boundary `(h + i) % I == 0` query the
scheduled leader and stop with the rotation flag if it is not this node;
stop at `i == N`; otherwise advance `i` by
`min(I - h % I, N - i)` (note the source computes the step from `h`
alone, without `i`).  The fuel argument only bounds the recursion; fuel
`N + 1` is always sufficient for `I > 0` because `i` strictly increases. -/
def findLoop (L : Nat → Option Pubkey) (my : Pubkey) (I h N : Nat) :
    Nat → Nat → Option (Nat × Bool)
  | 0, _ => none
  | fuel + 1, i =>
    if (h + i) % I = 0 ∧ L (h + i) ≠ some my then some (i, true)
    else if i = N then some (i, false)
    else findLoop L my I h N fuel (i + min (I - h % I) (N - i))

/-- `WriteStage::find_leader_rotation_index`: returns the authored prefix
of the batch and the rotation flag.  `none` models the `%`-by-zero panic
for `I = 0` (and, vacuously, fuel exhaustion, which cannot occur for
`I > 0`). -/
def find_leader_rotation_index {α : Type} (L : Nat → Option Pubkey) (my : Pubkey)
    (leader_rotation_interval : Nat) (entry_height : Nat) (new_entries : List α) :
    Option (List α × Bool) :=
  if leader_rotation_interval = 0 then none
  else
    match findLoop L my leader_rotation_interval entry_height new_entries.length
        (new_entries.length + 1) 0 with
    | none => none
    | some (i, flag) => some (new_entries.take i, flag)

/-! ## Datagram batch receiver (`recvmmsg.rs`)

Modelled from the spec: the operating-system socket is a queue of
pending datagrams.  A receive in blocking mode completes only when a
datagram is available (otherwise the call blocks: `none`); in
non-blocking mode an empty queue yields a would-block error.  A datagram
longer than the packet buffer is truncated "per standard UDP
semantics". -/

/-- `NUM_RCVMMSGS` from `recvmmsg.rs`. -/
def NUM_RCVMMSGS : Nat := 16

/-- Packet metadata: datagram size and remote source address
(addresses are opaque, modelled as `Nat`). -/
structure Meta where
  size : Nat
  addr : Nat
deriving DecidableEq

/-- A packet: fixed-capacity data buffer plus metadata. -/
structure Packet where
  data : List Nat
  meta : Meta
deriving DecidableEq

/-- Modelled from the spec: a datagram waiting in the socket queue. -/
structure Datagram where
  payload : List Nat
  src : Nat
deriving DecidableEq

/-- Modelled from the spec: the OS view of a bound UDP socket — the queue
of received datagrams and the blocking mode flag. -/
structure SocketModel where
  pending : List Datagram
  nonblocking : Bool
deriving DecidableEq

/-- Copy a received payload into a fixed-size packet buffer, truncating
to the buffer length and leaving the tail of the buffer unchanged. -/
def writeInto (buf payload : List Nat) : List Nat :=
  payload.take buf.length ++ buf.drop (min payload.length buf.length)

/-- The body of the portable `recv_mmsg` loop over the first
`count = min(NUM_RCVMMSGS, packets.len())` slots.  `first` tracks
`i == 0` (the source switches the socket to non-blocking after the first
successful receive, and propagates instead of breaking on an error at
`i == 0`).  Each iteration first zeroes the slot's `meta.size`.  The
result is the received count, the processed slots and the socket. -/
def recvLoop : SocketModel → Bool → List Packet →
    Option (Except Unit (Nat × List Packet × SocketModel))
  | sock, _, [] => some (.ok (0, [], sock))
  | sock, first, p :: rest =>
    match sock.pending with
    | [] =>
      if first then none
      else some (.ok (0, { p with meta := { p.meta with size := 0 } } :: rest, sock))
    | d :: q =>
      match recvLoop ⟨q, if first then true else sock.nonblocking⟩ false rest with
      | none => none
      | some (.error e) => some (.error e)
      | some (.ok (k, rest2, sock3)) =>
        some (.ok (k + 1,
          ⟨writeInto p.data d.payload, ⟨min d.payload.length p.data.length, d.src⟩⟩ :: rest2,
          sock3))

/-- Portable (non-Linux) `recv_mmsg`: set the socket blocking, loop over
at most `min(NUM_RCVMMSGS, packets.len())` slots.  Slots beyond the cap
are untouched. -/
def recv_mmsg (socket : SocketModel) (packets : List Packet) :
    Option (Except Unit (Nat × List Packet × SocketModel)) :=
  match recvLoop { socket with nonblocking := false } true
      (packets.take (min NUM_RCVMMSGS packets.length)) with
  | none => none
  | some (.error e) => some (.error e)
  | some (.ok (k, slots, sock2)) =>
    some (.ok (k, slots ++ packets.drop (min NUM_RCVMMSGS packets.length), sock2))

/-- Fill the first slots from the received datagrams (the Linux path's
per-index copy of `msg_len` and the source address). -/
def fillPackets : List Datagram → List Packet → List Packet
  | [], ps => ps
  | _, [] => []
  | d :: q, p :: rest =>
    { data := writeInto p.data d.payload,
      meta := ⟨min d.payload.length p.data.length, d.src⟩ } :: fillPackets q rest

/-- Linux `recv_mmsg`: one `recvmmsg` syscall sized to
`min(NUM_RCVMMSGS, packets.len())`.  Modelled from the spec: with
`MSG_WAITFORONE` and a 1-second timeout the syscall delivers
`min(count, available)` datagrams, or an error when none arrive. -/
def recv_mmsg_linux (sock : SocketModel) (packets : List Packet) :
    Except Unit (Nat × List Packet × SocketModel) :=
  if sock.pending.isEmpty then .error ()
  else
    .ok (min (min NUM_RCVMMSGS packets.length) sock.pending.length,
      fillPackets (sock.pending.take (min (min NUM_RCVMMSGS packets.length) sock.pending.length))
          (packets.take (min NUM_RCVMMSGS packets.length)) ++
        packets.drop (min NUM_RCVMMSGS packets.length),
      { sock with pending :=
          sock.pending.drop (min (min NUM_RCVMMSGS packets.length) sock.pending.length) })

/-! ## Auxiliary definitions for the statements -/

/-- Total tokens over an account slice. -/
def sumTokens (accounts : List Account) : Int := (accounts.map Account.tokens).sum

/-! ## Concrete scenario inputs

A contract account holding a pending plan that pays 5 tokens to pubkey 3
once pubkey 1 signs, plus the transactions driving it.  Pubkeys are the
small numbers 1 (witness signer), 2 (contract account), 3 (destination),
4 (a wrong destination), 10 (a funding source). -/

/-- A pending plan: pay `⟨5 tokens, to 3⟩` after a signature from 1. -/
def planW : FinPlan := .payAfter (.signature 1) ⟨5, 3⟩

/-- The stored contract state holding `planW`. -/
def stateW : FinPlanState := ⟨true, some planW⟩

/-- Contract-account userdata: the framed serialization of `stateW`. -/
def ctxUD : List Nat := u64LE (encodeState stateW).length ++ encodeState stateW

/-- An `ApplySignature` transaction with keys `[signer, contract, destination]`. -/
def txSig : Transaction := ⟨[1, 2, 3], [2, 0, 0, 0]⟩

/-- The same transaction with only two keys — `keys[2]` absent. -/
def txSigShort : Transaction := ⟨[1, 2], [2, 0, 0, 0]⟩

/-- The same transaction with a wrong destination in `keys[2]`. -/
def txSigWrong : Transaction := ⟨[1, 2, 4], [2, 0, 0, 0]⟩

/-- Accounts `[source, contract (escrowing 5), destination]`. -/
def accsW : List Account := [⟨0, []⟩, ⟨5, ctxUD⟩, ⟨0, []⟩]

/-- The contract userdata after finalization: frame of `⟨true, none⟩`
written over `ctxUD`. -/
def bufW1 : List Nat := u64LE 2 ++ [1, 0] ++ ctxUD.drop 10

/-- The accounts after the signature witness finalizes the payment. -/
def accsW1 : List Account := [⟨0, []⟩, ⟨0, bufW1⟩, ⟨5, []⟩]

/-- A `NewContract` whose instruction escrows 5 tokens but whose trivial
plan pays 100. -/
def txTriv : Transaction := ⟨[10, 2], encodeInstruction (.newContract ⟨5, .pay ⟨100, 3⟩⟩)⟩

/-- A `NewContract{tokens: 1, plan: planW}` (non-trivial plan). -/
def txNew : Transaction := ⟨[10, 2], encodeInstruction (.newContract ⟨1, planW⟩)⟩

/-- An account whose userdata is the engine-framed pending state, holding
7 visible tokens. -/
def acctPendingC4 : Account := ⟨7, ctxUD⟩

/-- Leader oracle: this node (pubkey 7) is scheduled everywhere except
height 20, where pubkey 99 takes over. -/
def oracleC3 : Nat → Option Pubkey := fun x => if x = 20 then some 99 else some 7

/-- A socket with two datagrams queued, from sources 55 and 66. -/
def sockW : SocketModel := ⟨[⟨[9, 9], 55⟩, ⟨[1, 2, 3, 4], 66⟩], false⟩

/-- Three empty 3-byte packet slots. -/
def packetsW : List Packet := [⟨[0, 0, 0], ⟨9, 9⟩⟩, ⟨[0, 0, 0], ⟨9, 9⟩⟩, ⟨[0, 0, 0], ⟨9, 9⟩⟩]

/-! ## Encoding / decoding round-trip lemmas -/

theorem readBytesAt_append {k : Nat} (b r : List Nat) (h : b.length = k) :
    readBytesAt k (b ++ r) = some (b, r) := by
  subst h
  unfold readBytesAt
  rw [if_neg (by simp), List.take_left, List.drop_left]

theorem parseU32_encode (n : Nat) (r : List Nat) (h : n < 2 ^ 32) :
    parseU32 (u32LE n ++ r) = some (n, r) := by
  unfold parseU32 u32LE
  rw [readBytesAt_append _ _ (natLEBytes_length 4 n)]
  simp [fromLEBytes_natLEBytes 4 n (lt_of_lt_of_le h (by norm_num))]

theorem parseU64_encode (n : Nat) (r : List Nat) (h : n < 2 ^ 64) :
    parseU64 (u64LE n ++ r) = some (n, r) := by
  unfold parseU64 u64LE
  rw [readBytesAt_append _ _ (natLEBytes_length 8 n)]
  simp [fromLEBytes_natLEBytes 8 n (lt_of_lt_of_le h (by norm_num))]

theorem parseI64_encode (z : Int) (r : List Nat) (h : WFi64 z) :
    parseI64 (i64LE z ++ r) = some (z, r) := by
  unfold parseI64
  rw [readBytesAt_append _ _ (by unfold i64LE; exact natLEBytes_length 8 _)]
  simp [decodeI64_i64LE z h.1 h.2]

theorem parsePubkey_encode (pk : Pubkey) (r : List Nat) (h : WFPubkey pk) :
    parsePubkey (natLEBytes 32 pk ++ r) = some (pk, r) := by
  unfold parsePubkey
  rw [readBytesAt_append _ _ (natLEBytes_length 32 pk)]
  simp [fromLEBytes_natLEBytes 32 pk (lt_of_lt_of_le h (by norm_num))]

theorem parseDT_encode (dt : DateTimeUtc) (r : List Nat) (h : WFdt dt) :
    parseDT (encodeDT dt ++ r) = some (dt, r) := by
  unfold parseDT encodeDT
  rw [List.append_assoc]
  simp [parseU64_encode 8 (u64LE dt ++ r) (by norm_num),
    @readBytesAt_append 8 (u64LE dt) r (by simp [u64LE, natLEBytes_length]),
    show fromLEBytes (u64LE dt) = dt from
      fromLEBytes_natLEBytes 8 dt (lt_of_lt_of_le h (by norm_num))]

theorem parseBool_encode (b : Bool) (r : List Nat) :
    parseBool (encodeBool b ++ r) = some (b, r) := by
  cases b <;> rfl

theorem parsePayment_encode (p : Payment) (r : List Nat) (h : WFPayment p) :
    parsePayment (encodePayment p ++ r) = some (p, r) := by
  unfold parsePayment encodePayment
  rw [List.append_assoc]
  simp [parseI64_encode p.tokens _ h.1, parsePubkey_encode p.to_key r h.2]

theorem parseCondition_encode (c : Condition) (r : List Nat) (h : WFCondition c) :
    parseCondition (encodeCondition c ++ r) = some (c, r) := by
  cases c with
  | timestamp dt pk =>
    unfold parseCondition encodeCondition
    rw [List.append_assoc, List.append_assoc]
    simp [parseU32_encode 0 _ (by norm_num), parseDT_encode dt _ h.1,
      parsePubkey_encode pk r h.2]
  | signature pk =>
    unfold parseCondition encodeCondition
    rw [List.append_assoc]
    simp [parseU32_encode 1 _ (by norm_num), parsePubkey_encode pk r h]

theorem parseFinPlan_encode (fp : FinPlan) (r : List Nat) (h : WFFinPlan fp) :
    parseFinPlan (encodeFinPlan fp ++ r) = some (fp, r) := by
  cases fp with
  | pay p =>
    unfold parseFinPlan encodeFinPlan
    rw [List.append_assoc]
    simp [parseU32_encode 0 _ (by norm_num), parsePayment_encode p r h]
  | payAfter c p =>
    unfold parseFinPlan encodeFinPlan
    rw [List.append_assoc, List.append_assoc]
    simp [parseU32_encode 1 _ (by norm_num), parseCondition_encode c _ h.1,
      parsePayment_encode p r h.2]
  | race cp1 cp2 =>
    obtain ⟨c1, p1⟩ := cp1
    obtain ⟨c2, p2⟩ := cp2
    unfold parseFinPlan encodeFinPlan
    rw [List.append_assoc, List.append_assoc, List.append_assoc, List.append_assoc]
    simp [parseU32_encode 2 _ (by norm_num), parseCondition_encode c1 _ h.1.1,
      parsePayment_encode p1 _ h.1.2, parseCondition_encode c2 _ h.2.1,
      parsePayment_encode p2 r h.2.2]

theorem parseOptionFinPlan_encode (o : Option FinPlan) (r : List Nat)
    (h : ∀ fp, o = some fp → WFFinPlan fp) :
    parseOptionFinPlan (encodeOptionFinPlan o ++ r) = some (o, r) := by
  cases o with
  | none => rfl
  | some fp =>
    show parseOptionFinPlan (1 :: (encodeFinPlan fp ++ r)) = some (some fp, r)
    unfold parseOptionFinPlan
    simp [parseFinPlan_encode fp r (h fp rfl)]

theorem parseStateBody_encode (s : FinPlanState) (r : List Nat) (h : WFState s) :
    parseStateBody (encodeState s ++ r) = some (s, r) := by
  unfold parseStateBody encodeState
  rw [List.append_assoc]
  have hopt : parseOptionFinPlan (encodeOptionFinPlan s.pending_fin_plan ++ r) =
      some (s.pending_fin_plan, r) := by
    apply parseOptionFinPlan_encode
    intro fp hfp
    unfold WFState at h
    rw [hfp] at h
    exact h
  simp [parseBool_encode s.initialized, hopt]

theorem encodeState_length_le (s : FinPlanState) : (encodeState s).length ≤ 190 := by
  have hpay : ∀ p : Payment, (encodePayment p).length = 40 := by
    intro p
    simp [encodePayment, i64LE, natLEBytes_length]
  have hcond : ∀ c : Condition, (encodeCondition c).length ≤ 52 := by
    intro c
    cases c <;> simp [encodeCondition, encodeDT, u32LE, u64LE, natLEBytes_length]
  have hfp : ∀ fp : FinPlan, (encodeFinPlan fp).length ≤ 188 := by
    intro fp
    cases fp with
    | pay p => simp [encodeFinPlan, u32LE, natLEBytes_length, hpay]
    | payAfter c p =>
      have := hcond c
      simp [encodeFinPlan, u32LE, natLEBytes_length, hpay]
      omega
    | race cp1 cp2 =>
      have h1 := hcond cp1.1
      have h2 := hcond cp2.1
      simp [encodeFinPlan, u32LE, natLEBytes_length, hpay]
      omega
  unfold encodeState
  cases hp : s.pending_fin_plan with
  | none => cases s.initialized <;> simp [encodeBool, encodeOptionFinPlan]
  | some fp =>
    have := hfp fp
    cases s.initialized <;> simp [encodeBool, encodeOptionFinPlan] <;> omega

theorem encodeState_length_ge (s : FinPlanState) : 2 ≤ (encodeState s).length := by
  unfold encodeState
  cases s.pending_fin_plan <;> cases s.initialized <;>
    simp [encodeBool, encodeOptionFinPlan]

/-- Deserializing a correctly framed buffer recovers the state, whatever
trailing bytes follow the body. -/
theorem deserialize_frame (s : FinPlanState) (tail : List Nat) (h : WFState s) :
    FinPlanState.deserialize (u64LE (encodeState s).length ++ (encodeState s ++ tail)) =
      some s := by
  have hlen8 : (u64LE (encodeState s).length).length = 8 := natLEBytes_length 8 _
  have hge := encodeState_length_ge s
  have hle := encodeState_length_le s
  have hfrom : fromLEBytes (u64LE (encodeState s).length) = (encodeState s).length := by
    unfold u64LE
    exact fromLEBytes_natLEBytes 8 _ (lt_of_le_of_lt hle (by norm_num))
  have htake : (u64LE (encodeState s).length ++ (encodeState s ++ tail)).take 8 =
      u64LE (encodeState s).length := by
    rw [← hlen8, List.take_left]
  have hdrop : (u64LE (encodeState s).length ++ (encodeState s ++ tail)).drop 8 =
      encodeState s ++ tail := by
    rw [← hlen8, List.drop_left]
  have hps : parseStateBody (encodeState s) = some (s, []) := by
    have := parseStateBody_encode s [] h
    simpa using this
  unfold FinPlanState.deserialize
  rw [htake, hfrom, hdrop]
  rw [if_neg (by simp [List.length_append, hlen8])]
  rw [if_neg (by omega)]
  rw [if_neg (by simp [List.length_append, hlen8])]
  rw [List.take_left]
  unfold rawDeserializeState
  rw [hps]
  rfl

/-- A successful `serialize` writes the frame and nothing else fails:
deserializing the result recovers the state (the framing round trip). -/
theorem serialize_then_deserialize (s : FinPlanState) (buf buf2 : List Nat)
    (hWF : WFState s) (h : s.serialize buf = some (.ok buf2)) :
    FinPlanState.deserialize buf2 = some s := by
  unfold FinPlanState.serialize at h
  split at h
  · simp at h
  · split at h
    · simp at h
    · split at h
      · simp at h
      · have hbuf : buf2 = u64LE (encodeState s).length ++
            (encodeState s ++ buf.drop (8 + (encodeState s).length)) := by
          have h2 := Except.ok.inj (Option.some.inj h)
          rw [← h2, List.append_assoc]
        rw [hbuf]
        exact deserialize_frame s _ hWF

/-- `serialize` succeeds whenever the buffer holds the 8-byte header plus
the body, and writes exactly the frame followed by the untouched tail. -/
theorem serialize_ok_of_capacity (s : FinPlanState) (buf : List Nat)
    (h : 8 + (encodeState s).length ≤ buf.length) :
    s.serialize buf = some (.ok (u64LE (encodeState s).length ++ encodeState s ++
      buf.drop (8 + (encodeState s).length))) := by
  unfold FinPlanState.serialize
  rw [if_neg (by omega), if_neg (by omega), if_neg (by omega)]

/-! ## Elimination lemmas for the engine -/

/-- A successful `process_transaction` decomposes into a successful debit
phase followed by a successful credit phase. -/
theorem process_ok_elim (tx : Transaction) (A A2 : List Account)
    (instr : Instruction)
    (hparse : parseInstruction tx.userdata = some instr)
    (h : process_transaction tx A = some (.ok (), A2)) :
    ∃ A1, apply_debits_to_fin_plan_state tx A instr = some (.ok (), A1) ∧
      apply_credits_to_fin_plan_state tx A1 instr = some (.ok (), A2) := by
  unfold process_transaction at h
  split at h
  · next heq => rw [hparse] at heq; exact absurd heq (by simp)
  · next instr2 heq =>
    rw [hparse] at heq
    injection heq with heq2
    subst heq2
    split at h
    · simp at h
    · simp at h
    · next u A1 heq3 => exact ⟨A1, heq3, h⟩

/-- A successful debit phase requires an empty source userdata; for
`NewContract` it debits the amount from the head account, and for every
other instruction it leaves the accounts untouched. -/
theorem debits_ok_elim (tx : Transaction) (A : List Account) (instr : Instruction)
    (u : Unit) (A2 : List Account)
    (h : apply_debits_to_fin_plan_state tx A instr = some (.ok u, A2)) :
    ∃ a0, A[0]? = some a0 ∧ a0.userdata.isEmpty = true ∧
      ((∃ c, instr = .newContract c ∧ ¬ c.tokens < 0 ∧ ¬ a0.tokens < c.tokens ∧
          A2 = A.set 0 { a0 with tokens := a0.tokens - c.tokens }) ∨
        ((∀ c, instr ≠ .newContract c) ∧ A2 = A)) := by
  unfold apply_debits_to_fin_plan_state at h
  split at h
  · simp at h
  · next a0 hA0 =>
    split at h
    · split at h <;> simp at h
    · next hud =>
      refine ⟨a0, hA0, by simpa using hud, ?_⟩
      split at h
      · next c =>
        split at h
        · simp at h
        · split at h
          · split at h <;> simp at h
          · next hc0 hc1 =>
            simp only [Option.some.injEq, Prod.mk.injEq] at h
            exact .inl ⟨c, rfl, hc0, hc1, h.2.symm⟩
      · next hne =>
        simp only [Option.some.injEq, Prod.mk.injEq] at h
        refine .inr ⟨?_, h.2.symm⟩
        intro c hc
        exact hne c hc
/-- Setting one entry adjusts the token sum by the difference. -/
theorem sumTokens_set (A : List Account) (i : Nat) (a b : Account)
    (h : A[i]? = some a) :
    sumTokens (A.set i b) = sumTokens A - a.tokens + b.tokens := by
  induction A generalizing i with
  | nil => simp at h
  | cons x xs ih =>
    cases i with
    | zero =>
      simp only [List.getElem?_cons_zero, Option.some.injEq] at h
      subst h
      simp [sumTokens, List.set]
      ring
    | succ n =>
      simp only [List.getElem?_cons_succ] at h
      have := ih n h
      simp only [List.set_cons_succ, sumTokens, List.map_cons, List.sum_cons] at *
      omega

/-- The witness routine never changes the token sum: either no payment is
finalized, or it moves `payment.tokens` from `accounts[1]` to
`accounts[2]`. -/
theorem applyWitnessStep_sum (s : FinPlanState) (keys : List Pubkey)
    (A : List Account) (w : Witness) (r : Except FinPlanError Unit)
    (s2 : FinPlanState) (A2 : List Account)
    (h : applyWitnessStep s keys A w = some (r, s2, A2)) :
    sumTokens A2 = sumTokens A := by
  unfold applyWitnessStep at h
  split at h
  · simp only [Option.some.injEq, Prod.mk.injEq] at h
    rw [← h.2.2]
  · split at h
    · simp at h
    · split at h
      · simp only [Option.some.injEq, Prod.mk.injEq] at h
        rw [← h.2.2]
      · split at h
        · simp only [Option.some.injEq, Prod.mk.injEq] at h
          rw [← h.2.2]
        · split at h
          · simp at h
          · split at h
            · simp only [Option.some.injEq, Prod.mk.injEq] at h
              rw [← h.2.2]
            · split at h
              · next a1 a2 hA1 hA2 =>
                simp only [Option.some.injEq, Prod.mk.injEq] at h
                rw [← h.2.2]
                rw [sumTokens_set _ 2 a2 _ (by rw [List.getElem?_set_ne (by omega)]; exact hA2)]
                rw [sumTokens_set _ 1 a1 _ hA1]
                ring
              · simp at h

/-- The witness routine leaves the head account untouched (it only sets
indices 1 and 2). -/
theorem applyWitnessStep_head (s : FinPlanState) (keys : List Pubkey)
    (A : List Account) (w : Witness) (r : Except FinPlanError Unit)
    (s2 : FinPlanState) (A2 : List Account)
    (h : applyWitnessStep s keys A w = some (r, s2, A2)) :
    A2[0]? = A[0]? := by
  unfold applyWitnessStep at h
  split at h
  · simp only [Option.some.injEq, Prod.mk.injEq] at h
    rw [← h.2.2]
  · split at h
    · simp at h
    · split at h
      · simp only [Option.some.injEq, Prod.mk.injEq] at h
        rw [← h.2.2]
      · split at h
        · simp only [Option.some.injEq, Prod.mk.injEq] at h
          rw [← h.2.2]
        · split at h
          · simp at h
          · split at h
            · simp only [Option.some.injEq, Prod.mk.injEq] at h
              rw [← h.2.2]
            · split at h
              · next a1 a2 hA1 hA2 =>
                simp only [Option.some.injEq, Prod.mk.injEq] at h
                rw [← h.2.2]
                rw [List.getElem?_set_ne (by omega), List.getElem?_set_ne (by omega)]
              · simp at h

/-- A successful witness-credit phase preserves the token sum. -/
theorem applyWitnessCredit_sum (tx : Transaction) (A : List Account)
    (w : Witness) (u : Unit) (A2 : List Account)
    (h : applyWitnessCredit tx A w = some (.ok u, A2)) :
    sumTokens A2 = sumTokens A := by
  unfold applyWitnessCredit at h
  split at h
  · simp at h
  · next a1 hA1 =>
    split at h
    · next state hdes =>
      split at h
      · split at h <;> simp at h
      · split at h
        · split at h <;> simp at h
        · split at h
          · simp at h
          · next e s2 acc2 hstep => simp at h
          · next uu s2 acc2 hstep =>
            split at h
            · simp at h
            · next a1b hA1b =>
              split at h
              · simp at h
              · simp at h
              · next buf hser =>
                simp only [Option.some.injEq, Prod.mk.injEq] at h
                rw [← h.2]
                rw [sumTokens_set _ 1 a1b _ hA1b]
                rw [applyWitnessStep_sum _ _ _ _ _ _ _ hstep]
                ring
    · split at h <;> simp at h

/-- A successful witness-credit phase preserves the head account. -/
theorem applyWitnessCredit_head (tx : Transaction) (A : List Account)
    (w : Witness) (u : Unit) (A2 : List Account)
    (h : applyWitnessCredit tx A w = some (.ok u, A2)) :
    A2[0]? = A[0]? := by
  unfold applyWitnessCredit at h
  split at h
  · simp at h
  · next a1 hA1 =>
    split at h
    · next state hdes =>
      split at h
      · split at h <;> simp at h
      · split at h
        · split at h <;> simp at h
        · split at h
          · simp at h
          · next e s2 acc2 hstep => simp at h
          · next uu s2 acc2 hstep =>
            split at h
            · simp at h
            · next a1b hA1b =>
              split at h
              · simp at h
              · simp at h
              · next buf hser =>
                simp only [Option.some.injEq, Prod.mk.injEq] at h
                rw [← h.2]
                rw [List.getElem?_set_ne (by omega)]
                exact applyWitnessStep_head _ _ _ _ _ _ _ hstep
    · split at h <;> simp at h

/-- A successful trivial-plan credit (the plan finalizes immediately)
credits `payment.tokens` to `accounts[1]` and touches nothing else. -/
theorem credits_newContract_trivial_elim (tx : Transaction) (A A2 : List Account)
    (c : Contract) (p : Payment) (u : Unit)
    (hfp : c.fin_plan.final_payment = some p)
    (h : apply_credits_to_fin_plan_state tx A (.newContract c) = some (.ok u, A2)) :
    ∃ a1, A[1]? = some a1 ∧ A2 = A.set 1 { a1 with tokens := a1.tokens + p.tokens } := by
  unfold apply_credits_to_fin_plan_state at h
  split at h
  · next c2 heqc =>
    injection heqc with hc2
    subst hc2
    split at h
    · next payment heq =>
      rw [hfp] at heq
      injection heq with heq2
      subst heq2
      split at h
      · simp at h
      · next a1 hA1 =>
        simp only [Option.some.injEq, Prod.mk.injEq] at h
        exact ⟨a1, hA1, h.2.symm⟩
    · next heq => rw [hfp] at heq; simp at heq
  · next heqc => simp at heqc
  · next heqc => simp at heqc
  · next heqc => simp at heqc

/-- A successful non-trivial `NewContract` credit initializes the pending
state in `accounts[1]`: it credits `contract.tokens` and overwrites the
userdata with the serialized `{initialized: true, pending: Some(plan)}`. -/
theorem credits_newContract_pending_elim (tx : Transaction) (A A2 : List Account)
    (c : Contract) (u : Unit)
    (hfp : c.fin_plan.final_payment = none)
    (h : apply_credits_to_fin_plan_state tx A (.newContract c) = some (.ok u, A2)) :
    ∃ a1 buf, A[1]? = some a1 ∧
      FinPlanState.serialize ⟨true, some c.fin_plan⟩ a1.userdata = some (.ok buf) ∧
      A2 = A.set 1 { a1 with tokens := a1.tokens + c.tokens, userdata := buf } := by
  unfold apply_credits_to_fin_plan_state at h
  split at h
  · next c2 heqc =>
    injection heqc with hc2
    subst hc2
    split at h
    · next payment heq => rw [hfp] at heq; simp at heq
    · split at h
      · simp at h
      · next a1 hA1 =>
        split at h
        · split at h <;> simp at h
        · split at h
          · simp at h
          · simp at h
          · next buf hser =>
            simp only [Option.some.injEq, Prod.mk.injEq] at h
            exact ⟨a1, buf, hA1, hser, h.2.symm⟩
  · next heqc => simp at heqc
  · next heqc => simp at heqc
  · next heqc => simp at heqc

/-! ## Claim theorems -/

/-- C1: applying a signature witness that finalizes a payment to pubkey 3
with a two-key transaction does not return `DestinationMissing` — the
source indexes `keys[2]` behind a `keys.len() < 2` guard and panics
(`none`); with a present-but-wrong `keys[2]` it does return
`DestinationMissing(3)` with the accounts unchanged. -/
theorem destination_missing_short_keys_panics :
    process_transaction txSigShort accsW = none ∧
    txSigShort.keys.length = 2 ∧
    process_transaction txSigWrong accsW =
      some (.error (.DestinationMissing 3), accsW) :=
  ⟨rfl, rfl, rfl⟩

/-- C3: with interval 10, entry height 3 and a 20-entry batch,
`find_leader_rotation_index` returns the whole batch with the rotation
flag clear even though the boundary `3 + 17 = 20` inside the prefix is
scheduled for another leader — the loop steps by `I - h % I` computed
without `i` and skips the boundary. -/
theorem find_leader_rotation_index_skips_interior_boundary :
    find_leader_rotation_index oracleC3 7 10 3 (List.range 20) =
      some (List.range 20, false) ∧
    (3 + 17) % 10 = 0 ∧ 17 < 20 ∧ oracleC3 (3 + 17) ≠ some 7 :=
  ⟨rfl, rfl, by norm_num, by decide⟩

/-- C4: an account whose userdata is the engine-framed serialization of a
pending state is *not* reported as escrowed: `get_balance` feeds the raw
bytes (frame included) to bincode, the parse fails, and the raw token
balance 7 comes back instead of 0. -/
theorem get_balance_pending_framed_state_not_escrowed :
    get_balance acctPendingC4 = 7 ∧
    FinPlanState.deserialize acctPendingC4.userdata = some stateW ∧
    stateW.pending_fin_plan.isSome = true ∧
    acctPendingC4.tokens = 7 :=
  ⟨rfl, rfl, rfl, rfl⟩

/-- C5 counterexample: a `NewContract{tokens: 5}` whose trivial plan pays
100 succeeds, debits 5 from the source, and credits 100 — not the
instruction's 5 — to `accounts[1]`. -/
theorem trivial_plan_credit_mismatch :
    process_transaction txTriv [⟨5, []⟩, ⟨0, []⟩] =
      some (.ok (), [⟨0, []⟩, ⟨100, []⟩]) ∧
    ¬ ((100 : Int) = 0 + 5) :=
  ⟨rfl, by decide⟩

/-- C6: `serialize` of the default state (body length 2) panics (`none`)
on an 8-byte buffer instead of returning `UserdataTooSmall` — the source
checks the buffer only against the body length `L`, not `8 + L`, and then
slices `buf[8..8+L]`.  Buffers shorter than `L` do get
`UserdataTooSmall`, and buffers of at least `8 + L` succeed. -/
theorem serialize_panics_on_midsized_buffer :
    (encodeState ⟨false, none⟩).length = 2 ∧
    FinPlanState.serialize ⟨false, none⟩ (List.replicate 8 0) = none ∧
    FinPlanState.serialize ⟨false, none⟩ (List.replicate 1 0) =
      some (.error .UserdataTooSmall) ∧
    FinPlanState.serialize ⟨false, none⟩ (List.replicate 10 0) =
      some (.ok [2, 0, 0, 0, 0, 0, 0, 0, 0, 0]) :=
  ⟨rfl, rfl, rfl, rfl⟩

/-- C7: framing round trip — for any representable state and any buffer
with room for the 8-byte header plus the body, serializing succeeds and
deserializing the written buffer returns exactly the state. -/
theorem framing_round_trip (s : FinPlanState) (buf : List Nat)
    (hWF : WFState s) (hcap : 8 + (encodeState s).length ≤ buf.length) :
    ∃ buf2, s.serialize buf = some (.ok buf2) ∧
      FinPlanState.deserialize buf2 = some s := by
  refine ⟨_, serialize_ok_of_capacity s buf hcap, ?_⟩
  exact serialize_then_deserialize s buf _ hWF (serialize_ok_of_capacity s buf hcap)

set_option maxRecDepth 8192 in
/-- C7 witness: the round trip evaluated on the concrete pending state
`stateW` and a 512-byte buffer. -/
theorem framing_round_trip_witness :
    ∃ buf2, FinPlanState.serialize stateW (List.replicate 512 0) = some (.ok buf2) ∧
      FinPlanState.deserialize buf2 = some stateW :=
  framing_round_trip stateW (List.replicate 512 0) (by decide) (by decide)

/-- C5 amended: when the plan of `NewContract{tokens, plan}` finalizes
immediately to `payment`, a successful `process_transaction` on
`[src, ctx, ...]` debits `tokens` from the source and credits
`payment.tokens` (the plan's own amount, which equals `tokens` only when
the plan pays the escrowed amount) to `accounts[1]`, leaving the
contract account's userdata unmodified. -/
theorem trivial_plan_credits_final_payment_amount
    (tx : Transaction) (src ctx : Account) (rest A2 : List Account)
    (c : Contract) (p : Payment)
    (hparse : parseInstruction tx.userdata = some (.newContract c))
    (hfp : c.fin_plan.final_payment = some p)
    (hproc : process_transaction tx (src :: ctx :: rest) = some (.ok (), A2)) :
    A2 = { src with tokens := src.tokens - c.tokens } ::
      { ctx with tokens := ctx.tokens + p.tokens, userdata := ctx.userdata } :: rest := by
  obtain ⟨A1, hdeb, hcred⟩ := process_ok_elim tx _ A2 _ hparse hproc
  obtain ⟨a0, hA0, hud, hcase⟩ := debits_ok_elim tx _ _ _ _ hdeb
  simp only [List.getElem?_cons_zero, Option.some.injEq] at hA0
  subst hA0
  rcases hcase with ⟨c2, hceq, hc0, hc1, hA1eq⟩ | ⟨hno, _⟩
  · injection hceq with hc2
    subst hc2
    subst hA1eq
    obtain ⟨a1, hA1, hA2⟩ := credits_newContract_trivial_elim tx _ A2 c p () hfp hcred
    simp only [List.set] at hA1 hA2
    simp only [List.getElem?_cons_succ, List.getElem?_cons_zero, Option.some.injEq] at hA1
    subst hA1
    rw [hA2]
  · exact absurd rfl (hno c)

/-- C5 amended, witness: `NewContract{tokens: 5, plan: Pay{100 → 3}}`
debits 5 and credits 100. -/
theorem trivial_plan_credits_final_payment_amount_witness :
    ([⟨0, []⟩, ⟨100, []⟩] : List Account) =
      [⟨5 - 5, []⟩, ⟨0 + 100, []⟩] :=
  trivial_plan_credits_final_payment_amount txTriv ⟨5, []⟩ ⟨0, []⟩ [] _
    ⟨5, .pay ⟨100, 3⟩⟩ ⟨100, 3⟩ rfl rfl rfl

/-- C2: a successful `NewContract{tokens, plan}` with a non-trivial plan
(`final_payment()` is `None`) on accounts `[src, ctx, ...]` debits
exactly `tokens` from `src`, credits exactly `tokens` to `ctx`, and
leaves `ctx.userdata` deserializing (via `FinPlanState::deserialize`) to
`{initialized: true, pending_fin_plan: Some(plan)}`.  `WFFinPlan` states
the representability bounds the Rust types impose. -/
theorem newContract_nontrivial_postcondition
    (tx : Transaction) (src ctx : Account) (rest A2 : List Account) (c : Contract)
    (hparse : parseInstruction tx.userdata = some (.newContract c))
    (hfp : c.fin_plan.final_payment = none)
    (hWF : WFFinPlan c.fin_plan)
    (hproc : process_transaction tx (src :: ctx :: rest) = some (.ok (), A2)) :
    ∃ buf, A2 = { src with tokens := src.tokens - c.tokens } ::
        { ctx with tokens := ctx.tokens + c.tokens, userdata := buf } :: rest ∧
      FinPlanState.deserialize buf = some ⟨true, some c.fin_plan⟩ := by
  obtain ⟨A1, hdeb, hcred⟩ := process_ok_elim tx _ A2 _ hparse hproc
  obtain ⟨a0, hA0, hud, hcase⟩ := debits_ok_elim tx _ _ _ _ hdeb
  simp only [List.getElem?_cons_zero, Option.some.injEq] at hA0
  subst hA0
  rcases hcase with ⟨c2, hceq, hc0, hc1, hA1eq⟩ | ⟨hno, _⟩
  · injection hceq with hc2
    subst hc2
    subst hA1eq
    obtain ⟨a1, buf, hA1, hser, hA2⟩ :=
      credits_newContract_pending_elim tx _ A2 c () hfp hcred
    simp only [List.set] at hA1 hA2
    simp only [List.getElem?_cons_succ, List.getElem?_cons_zero, Option.some.injEq] at hA1
    subst hA1
    refine ⟨buf, ?_, ?_⟩
    · rw [hA2]
    · exact serialize_then_deserialize _ _ _ hWF hser
  · exact absurd rfl (hno c)

set_option maxRecDepth 8192 in
/-- C2 witness: `NewContract{tokens: 1, plan: planW}` on
`[⟨1, ∅⟩, ⟨0, 512 zero bytes⟩]` yields `[⟨0, ∅⟩, ⟨1, framed stateW⟩]`. -/
theorem newContract_nontrivial_postcondition_witness :
    ∃ buf, ([⟨0, []⟩, ⟨1, ctxUD ++ List.replicate 422 0⟩] : List Account) =
        [⟨1 - 1, []⟩, ⟨0 + 1, buf⟩] ∧
      FinPlanState.deserialize buf = some ⟨true, some planW⟩ :=
  newContract_nontrivial_postcondition txNew ⟨1, []⟩ ⟨0, List.replicate 512 0⟩ []
    [⟨0, []⟩, ⟨1, ctxUD ++ List.replicate 422 0⟩] ⟨1, planW⟩ rfl rfl (by decide) rfl

/-- C10: a successful `ApplyTimestamp` or `ApplySignature` transaction
conserves the total token sum over the accounts slice — either no final
payment was produced, or `payment.tokens` moved from `accounts[1]` to
`accounts[2]`. -/
theorem witness_instruction_token_conservation
    (tx : Transaction) (A A2 : List Account) (instr : Instruction)
    (hparse : parseInstruction tx.userdata = some instr)
    (hwit : (∃ dt, instr = .applyTimestamp dt) ∨ instr = .applySignature)
    (hproc : process_transaction tx A = some (.ok (), A2)) :
    sumTokens A2 = sumTokens A := by
  obtain ⟨A1, hdeb, hcred⟩ := process_ok_elim tx _ A2 _ hparse hproc
  obtain ⟨a0, hA0, hud, hcase⟩ := debits_ok_elim tx _ _ _ _ hdeb
  have hA1 : A1 = A := by
    rcases hcase with ⟨c, hceq, _⟩ | ⟨_, hA1⟩
    · rcases hwit with ⟨dt, rfl⟩ | rfl <;> simp at hceq
    · exact hA1
  subst hA1
  rcases hwit with ⟨dt, rfl⟩ | rfl
  · unfold apply_credits_to_fin_plan_state at hcred
    exact applyWitnessCredit_sum tx A1 _ () A2 hcred
  · unfold apply_credits_to_fin_plan_state at hcred
    exact applyWitnessCredit_sum tx A1 _ () A2 hcred

/-- C10 witness: the finalizing signature transaction on `accsW` moves 5
tokens from the contract to the destination, conserving the sum. -/
theorem witness_instruction_token_conservation_witness :
    sumTokens accsW1 = sumTokens accsW :=
  witness_instruction_token_conservation txSig accsW accsW1 .applySignature
    rfl (.inr rfl) rfl

/-- C8: once a witness transaction succeeds and leaves the contract
finalized (`pending_fin_plan = None` in the stored state), re-applying
the identical transaction returns `ContractNotPending(keys[1])` with
every account (tokens and userdata) unchanged. -/
theorem witness_replay_returns_contract_not_pending
    (tx : Transaction) (A A2 : List Account) (instr : Instruction) (kctx : Pubkey)
    (a1 : Account) (s2 : FinPlanState)
    (hparse : parseInstruction tx.userdata = some instr)
    (hwit : (∃ dt, instr = .applyTimestamp dt) ∨ instr = .applySignature)
    (hk1 : tx.keys[1]? = some kctx)
    (hproc : process_transaction tx A = some (.ok (), A2))
    (hA2a1 : A2[1]? = some a1)
    (hdes : FinPlanState.deserialize a1.userdata = some s2)
    (hnp : s2.pending_fin_plan = none) :
    process_transaction tx A2 = some (.error (.ContractNotPending kctx), A2) := by
  obtain ⟨A1, hdeb, hcred⟩ := process_ok_elim tx _ A2 _ hparse hproc
  obtain ⟨a0, hA0, hud, hcase⟩ := debits_ok_elim tx _ _ _ _ hdeb
  have hA1 : A1 = A := by
    rcases hcase with ⟨c, hceq, _⟩ | ⟨_, hA1⟩
    · rcases hwit with ⟨dt, rfl⟩ | rfl <;> simp at hceq
    · exact hA1
  subst hA1
  have hhead : A2[0]? = some a0 := by
    rw [← hA0]
    rcases hwit with ⟨dt, rfl⟩ | rfl
    · unfold apply_credits_to_fin_plan_state at hcred
      exact applyWitnessCredit_head tx A1 _ () A2 hcred
    · unfold apply_credits_to_fin_plan_state at hcred
      exact applyWitnessCredit_head tx A1 _ () A2 hcred
  have hpend : s2.is_pending = false := by
    simp [FinPlanState.is_pending, hnp]
  have hdeb2 : apply_debits_to_fin_plan_state tx A2 instr = some (.ok (), A2) := by
    unfold apply_debits_to_fin_plan_state
    rw [hhead]
    rcases hwit with ⟨dt, rfl⟩ | rfl <;> simp [hud]
  have hcred2 : apply_credits_to_fin_plan_state tx A2 instr =
      some (.error (.ContractNotPending kctx), A2) := by
    rcases hwit with ⟨dt, rfl⟩ | rfl <;>
      simp [apply_credits_to_fin_plan_state, applyWitnessCredit, hA2a1, hdes, hpend, hk1]
  unfold process_transaction
  simp [hparse, hdeb2, hcred2]

/-- C8 witness: replaying the finalizing signature transaction on the
post-state `accsW1` yields `ContractNotPending(2)` with `accsW1`
unchanged. -/
theorem witness_replay_returns_contract_not_pending_witness :
    process_transaction txSig accsW1 = some (.error (.ContractNotPending 2), accsW1) :=
  witness_replay_returns_contract_not_pending txSig accsW accsW1 .applySignature 2
    ⟨0, bufW1⟩ ⟨true, none⟩ rfl (.inr rfl) rfl rfl rfl rfl rfl

/-- Loop invariant for the portable receive loop: the received count is
bounded by the slot count, slot lengths are preserved, and every received
slot `i` carries the length (after buffer truncation) and source address
of the `i`-th queued datagram. -/
theorem recvLoop_spec (slots : List Packet) :
    ∀ (sock : SocketModel) (first : Bool) (k : Nat) (slots2 : List Packet)
      (sock2 : SocketModel),
      recvLoop sock first slots = some (.ok (k, slots2, sock2)) →
      k ≤ slots.length ∧ slots2.length = slots.length ∧
        ∀ i, i < k → ∀ d p0, sock.pending[i]? = some d → slots[i]? = some p0 →
          ∃ p, slots2[i]? = some p ∧
            p.meta.size = min d.payload.length p0.data.length ∧
            p.meta.addr = d.src := by
  induction slots with
  | nil =>
    intro sock first k slots2 sock2 h
    unfold recvLoop at h
    simp only [Option.some.injEq, Except.ok.injEq, Prod.mk.injEq] at h
    obtain ⟨hk, hs, _⟩ := h
    subst hk
    subst hs
    exact ⟨Nat.le_refl 0, rfl, by omega⟩
  | cons p rest ih =>
    intro sock first k slots2 sock2 h
    unfold recvLoop at h
    split at h
    · next hpend =>
      split at h
      · simp at h
      · simp only [Option.some.injEq, Except.ok.injEq, Prod.mk.injEq] at h
        obtain ⟨hk, hs, _⟩ := h
        subst hk
        subst hs
        exact ⟨by omega, by simp, by omega⟩
    · next d q hpend =>
      split at h
      · simp at h
      · simp at h
      · next k2 rest2 sock3 hstep =>
        simp only [Option.some.injEq, Except.ok.injEq, Prod.mk.injEq] at h
        obtain ⟨hk, hs, hsock⟩ := h
        subst hk
        subst hs
        obtain ⟨hkle, hlen, hslots⟩ := ih _ false k2 rest2 sock3 hstep
        refine ⟨by simp; omega, by simp [hlen], ?_⟩
        intro i hi d0 p0 hpend0 hslot0
        cases i with
        | zero =>
          rw [hpend] at hpend0
          simp only [List.getElem?_cons_zero, Option.some.injEq] at hpend0 hslot0
          subst hpend0
          subst hslot0
          exact ⟨⟨writeInto p.data d.payload,
            ⟨min d.payload.length p.data.length, d.src⟩⟩, by simp, rfl, rfl⟩
        | succ n =>
          rw [hpend] at hpend0
          simp only [List.getElem?_cons_succ] at hpend0 hslot0 ⊢
          exact hslots n (by omega) d0 p0 hpend0 hslot0

/-- The Linux fill loop preserves length and writes the datagram length
and source address into each filled slot. -/
theorem fillPackets_spec (ds : List Datagram) :
    ∀ ps : List Packet, (fillPackets ds ps).length = ps.length ∧
      ∀ (i : Nat) (d : Datagram) (p0 : Packet), ds[i]? = some d → ps[i]? = some p0 →
        ∃ p, (fillPackets ds ps)[i]? = some p ∧
          p.meta.size = min d.payload.length p0.data.length ∧
          p.meta.addr = d.src := by
  induction ds with
  | nil =>
    intro ps
    refine ⟨by simp [fillPackets], ?_⟩
    intro i d p0 hd hp
    simp at hd
  | cons d q ih =>
    intro ps
    cases ps with
    | nil =>
      refine ⟨by simp [fillPackets], ?_⟩
      intro i d0 p0 hd hp
      simp at hp
    | cons p rest =>
      obtain ⟨hlen, hslots⟩ := ih rest
      refine ⟨by simp [fillPackets, hlen], ?_⟩
      intro i d0 p0 hd0 hp0
      cases i with
      | zero =>
        simp only [List.getElem?_cons_zero, Option.some.injEq] at hd0 hp0
        subst hd0
        subst hp0
        exact ⟨⟨writeInto p.data d.payload,
          ⟨min d.payload.length p.data.length, d.src⟩⟩, by simp [fillPackets], rfl, rfl⟩
      | succ n =>
        simp only [List.getElem?_cons_succ] at hd0 hp0
        have := hslots n d0 p0 hd0 hp0
        simpa [fillPackets] using this

/-- C9: on both the portable and the Linux path, a successful
`recv_mmsg` returns `k ≤ min(NUM_RCVMMSGS, |slice|)`, and every filled
slot `i < k` records the length of the `i`-th queued datagram (truncated
to the slot's buffer capacity) in `meta.size` and its source address in
`meta.addr`. -/
theorem recv_mmsg_cap_and_slot_metadata
    (sock : SocketModel) (ps : List Packet)
    (k1 : Nat) (ps1 : List Packet) (s1 : SocketModel)
    (k2 : Nat) (ps2 : List Packet) (s2 : SocketModel)
    (h1 : recv_mmsg sock ps = some (.ok (k1, ps1, s1)))
    (h2 : recv_mmsg_linux sock ps = .ok (k2, ps2, s2)) :
    (k1 ≤ min NUM_RCVMMSGS ps.length ∧
      ∀ (i : Nat) (d : Datagram) (p0 : Packet), i < k1 →
        sock.pending[i]? = some d → ps[i]? = some p0 →
        ∃ p, ps1[i]? = some p ∧
          p.meta.size = min d.payload.length p0.data.length ∧
          p.meta.addr = d.src) ∧
    (k2 ≤ min NUM_RCVMMSGS ps.length ∧
      ∀ (i : Nat) (d : Datagram) (p0 : Packet), i < k2 →
        sock.pending[i]? = some d → ps[i]? = some p0 →
        ∃ p, ps2[i]? = some p ∧
          p.meta.size = min d.payload.length p0.data.length ∧
          p.meta.addr = d.src) := by
  constructor
  · unfold recv_mmsg at h1
    split at h1
    · simp at h1
    · simp at h1
    · next k slots sock2 hloop =>
      simp only [Option.some.injEq, Except.ok.injEq, Prod.mk.injEq] at h1
      obtain ⟨hk, hps1, _⟩ := h1
      subst hk
      subst hps1
      obtain ⟨hkle, hlen, hslots⟩ :=
        recvLoop_spec (ps.take (min NUM_RCVMMSGS ps.length)) _ true k slots sock2 hloop
      rw [List.length_take] at hkle hlen
      refine ⟨by omega, ?_⟩
      intro i d p0 hi hpend0 hps0
      have hik : i < min NUM_RCVMMSGS ps.length := by omega
      obtain ⟨p, hp, hsz, haddr⟩ := hslots i hi d p0 hpend0
        (by rw [List.getElem?_take_of_lt hik]; exact hps0)
      refine ⟨p, ?_, hsz, haddr⟩
      rw [List.getElem?_append_left (by omega), hp]
  · unfold recv_mmsg_linux at h2
    split at h2
    · simp at h2
    · next hne =>
      simp only [Except.ok.injEq, Prod.mk.injEq] at h2
      obtain ⟨hk, hps2, _⟩ := h2
      subst hk
      subst hps2
      refine ⟨by omega, ?_⟩
      intro i d p0 hi hpend0 hps0
      have hicnt : i < min NUM_RCVMMSGS ps.length := by omega
      obtain ⟨hlen, hslots⟩ :=
        fillPackets_spec
          (sock.pending.take (min (min NUM_RCVMMSGS ps.length) sock.pending.length))
          (ps.take (min NUM_RCVMMSGS ps.length))
      obtain ⟨p, hp, hsz, haddr⟩ := hslots i d p0
        (by rw [List.getElem?_take_of_lt hi]; exact hpend0)
        (by rw [List.getElem?_take_of_lt hicnt]; exact hps0)
      refine ⟨p, ?_, hsz, haddr⟩
      rw [List.getElem?_append_left (by rw [hlen, List.length_take]; omega), hp]

/-- C9 witness: two queued datagrams received into three slots on both
paths. -/
theorem recv_mmsg_cap_and_slot_metadata_witness :
    ((2 ≤ min NUM_RCVMMSGS packetsW.length ∧
      ∀ (i : Nat) (d : Datagram) (p0 : Packet), i < 2 →
        sockW.pending[i]? = some d → packetsW[i]? = some p0 →
        ∃ p, ([⟨[9, 9, 0], ⟨2, 55⟩⟩, ⟨[1, 2, 3], ⟨3, 66⟩⟩,
            ⟨[0, 0, 0], ⟨0, 9⟩⟩] : List Packet)[i]? = some p ∧
          p.meta.size = min d.payload.length p0.data.length ∧
          p.meta.addr = d.src) ∧
    (2 ≤ min NUM_RCVMMSGS packetsW.length ∧
      ∀ (i : Nat) (d : Datagram) (p0 : Packet), i < 2 →
        sockW.pending[i]? = some d → packetsW[i]? = some p0 →
        ∃ p, ([⟨[9, 9, 0], ⟨2, 55⟩⟩, ⟨[1, 2, 3], ⟨3, 66⟩⟩,
            ⟨[0, 0, 0], ⟨9, 9⟩⟩] : List Packet)[i]? = some p ∧
          p.meta.size = min d.payload.length p0.data.length ∧
          p.meta.addr = d.src)) :=
  recv_mmsg_cap_and_slot_metadata sockW packetsW
    2 [⟨[9, 9, 0], ⟨2, 55⟩⟩, ⟨[1, 2, 3], ⟨3, 66⟩⟩, ⟨[0, 0, 0], ⟨0, 9⟩⟩] ⟨[], true⟩
    2 [⟨[9, 9, 0], ⟨2, 55⟩⟩, ⟨[1, 2, 3], ⟨3, 66⟩⟩, ⟨[0, 0, 0], ⟨9, 9⟩⟩] ⟨[], false⟩
    rfl rfl

end Hypercube
